import Mathlib

/-!
# Verification of the dutch-learn-v2 core components

This development embeds the three core components of the repository in Lean
and proves (or refutes) the frozen claims about them:

* the sentence splitter (`desktop/app/services/sentence_splitter.py`),
* the snapshot merge engine (`desktop/app/services/progress_merger.py`),
* the pipeline orchestrator (`desktop/app/services/processor.py`) together
  with the transcription retry wrapper
  (`desktop/app/services/assemblyai_transcriber.py`) and the status enum of
  the `Project` model (`desktop/app/models/project.py`).

Modelling conventions:

* Every text value manipulated by the splitter is consumed through Python's
  `str.split()` and produced through `" ".join(...)`, so a segment is
  represented by its token list (`List String`).  The sentence-boundary
  regex `(?<=[.!?])\s+(?=[A-Z])` can only match a maximal whitespace run
  that separates two tokens, with the lookbehind inspecting the last
  character of the left token and the lookahead the first character of the
  right token; it is therefore translated to a split between consecutive
  tokens `w₁ w₂` where `w₁` ends with `.`/`!`/`?` and `w₂` starts with an
  ASCII uppercase letter.
* Float timestamps are modelled by `Rat`; the splitter and the pipeline only
  construct, copy and compare them, they never perform float arithmetic on
  them.
* `datetime.fromisoformat` (used by the merge engine through
  `_parse_timestamp`) is an external stdlib routine; it is modelled by an
  arbitrary parameter `parse : String → Option Int` mapping a timestamp
  string to a point on an ordered time line, so every theorem below holds
  for the real parser as well.
-/

namespace DutchLearn

/-! ## Sentence splitter (`app/services/sentence_splitter.py`) -/

namespace Splitter

/-- Timestamp information for a single word (`WordTimestamp`; the source
field `end` is called `end_time` here because `end` is a Lean keyword). -/
structure WordTimestamp where
  text : String
  start : Rat
  end_time : Rat
  deriving Repr, DecidableEq

/-- One utterance (`UtteranceInfo`).  `text` is the token list of the
source's text string (see the modelling conventions above). -/
structure UtteranceInfo where
  text : List String
  start : Rat
  end_time : Rat
  speaker_label : String
  words : List WordTimestamp
  deriving Repr, DecidableEq

/-- `CLAUSE_BOUNDARY_CHARS = {',', ';', ':', '—', '–'}`. -/
def CLAUSE_BOUNDARY_CHARS : List Char := [',', ';', ':', '—', '–']

/-- `MIN_SEGMENT_WORDS = 3`. -/
def MIN_SEGMENT_WORDS : Nat := 3

/-- The last character of a token, if any. -/
def lastChar (w : String) : Option Char := w.data.getLast?

/-- The first character of a token, if any. -/
def firstChar (w : String) : Option Char := w.data.head?

/-- ASCII uppercase letter, the character class `[A-Z]` of
`SENTENCE_BOUNDARY_RE`. -/
def isUpperAZ (c : Char) : Bool := 'A' ≤ c && c ≤ 'Z'

/-- Whether `SENTENCE_BOUNDARY_RE` matches the whitespace run between the
consecutive tokens `w1` and `w2`: the lookbehind `(?<=[.!?])` sees the last
character of `w1` and the lookahead `(?=[A-Z])` the first character of
`w2`. -/
def isSentenceBoundary (w1 w2 : String) : Bool :=
  (match lastChar w1 with
   | some c => c == '.' || c == '!' || c == '?'
   | none => false) &&
  (match firstChar w2 with
   | some c => isUpperAZ c
   | none => false)

/-- Step 1 of `_split_utterance`: `SENTENCE_BOUNDARY_RE.split(utt.text)`
followed by `strip` and dropping empty segments, expressed on the token
list.  Each produced group is non-empty, and a token-free text yields no
raw segments, exactly as in the source. -/
def sentenceBoundarySplit : List String → List (List String)
  | [] => []
  | [w] => [[w]]
  | w1 :: w2 :: rest =>
    match sentenceBoundarySplit (w2 :: rest) with
    | [] => [[w1]]
    | g :: gs =>
      if isSentenceBoundary w1 w2 then [w1] :: g :: gs else (w1 :: g) :: gs

/-- Word positions whose token ends with clause-boundary punctuation
(`boundary_positions` in `_split_on_clauses`; the `if word` truthiness test
is the `none` case of `lastChar`). -/
def boundaryPositions (ws : List String) : List Nat :=
  (ws.enum.filter (fun p =>
    match lastChar p.2 with
    | some c => CLAUSE_BOUNDARY_CHARS.contains c
    | none => false)).map (fun p => p.1)

/-- Distance to the midpoint, the sort key `abs(p - midpoint)`. -/
def midDist (mid p : Nat) : Nat := ((p : Int) - (mid : Int)).natAbs

/-- Python's `min(xs, key=...)`: the first element with minimal key. -/
def pyMinBy (key : Nat → Nat) : Nat → List Nat → Nat
  | best, [] => best
  | best, p :: rest => pyMinBy key (if key p < key best then p else best) rest

/-- `_split_on_clauses`, with explicit fuel.  The source recurses without a
termination guarantee: when the only clause boundary is the last word the
recursive call receives the whole segment again and Python would overflow
the recursion stack; the fuel cut-off returns the segment whole in that
(unreachable for terminating runs) case.  On every input on which the
source terminates, each recursive call strictly shortens the segment, so
`fuel = length + 1` reproduces the source exactly. -/
def splitOnClausesF (maxWords : Nat) : Nat → List String → List (List String)
  | 0, ws => [ws]
  | fuel + 1, ws =>
    if ws.length ≤ maxWords then [ws]
    else
      match boundaryPositions ws with
      | [] => [ws]
      | b :: bs =>
        let mid := ws.length / 2
        let best := pyMinBy (midDist mid) b bs
        let left := ws.take (best + 1)
        let right := ws.drop (best + 1)
        let lres :=
          if maxWords < left.length then splitOnClausesF maxWords fuel left
          else [left]
        let rres :=
          if right.isEmpty then []
          else if maxWords < right.length then splitOnClausesF maxWords fuel right
          else [right]
        lres ++ rres

/-- `_split_on_clauses` with the fuel needed to reproduce every terminating
run of the source. -/
def splitOnClauses (maxWords : Nat) (ws : List String) : List (List String) :=
  splitOnClausesF maxWords (ws.length + 1) ws

/-- The chunking loop of `_hard_split`; the fuel is the list length, which
suffices because every round removes at least one token. -/
def hardSplitGo (maxWords : Nat) : Nat → List String → List (List String)
  | 0, _ => []
  | _, [] => []
  | fuel + 1, ws => ws.take maxWords :: hardSplitGo maxWords fuel (ws.drop maxWords)

/-- `_hard_split`: contiguous `max_words`-sized windows.  With
`max_words = 0` the source's `range(0, n, 0)` raises `ValueError`; that
argument never occurs (the configured budget is positive), and the model
returns the segment whole there. -/
def hardSplit (maxWords : Nat) (ws : List String) : List (List String) :=
  if maxWords = 0 then [ws] else hardSplitGo maxWords ws.length ws

/-- The loop of `_merge_short_segments`.  `merged` is the accumulator in
reverse order; a short segment is appended to the previous output segment
when one exists, otherwise prepended to the next input segment, otherwise
kept.  Note that the source checks no word budget here.  The structural
`fuel` counts the remaining loop iterations: the source's `while` loop
runs exactly once per input position, so `fuel = segs.length` reproduces
it exactly and the exhaustion case is unreachable. -/
def mergeShortGo : Nat → List (List String) → List (List String) → List (List String)
  | _, merged, [] => merged.reverse
  | 0, merged, segs => merged.reverse ++ segs
  | fuel + 1, merged, seg :: rest =>
    if seg.length < MIN_SEGMENT_WORDS then
      match merged with
      | m :: ms => mergeShortGo fuel ((m ++ seg) :: ms) rest
      | [] =>
        match rest with
        | next :: rest' => mergeShortGo fuel [] ((seg ++ next) :: rest')
        | [] => mergeShortGo fuel [seg] []
    else
      mergeShortGo fuel (seg :: merged) rest

/-- `_merge_short_segments`. -/
def mergeShortSegments (segments : List (List String)) : List (List String) :=
  if segments.length ≤ 1 then segments else mergeShortGo segments.length [] segments

/-- Steps 1–4 of `_split_utterance`: the final text segments before
timestamp mapping. -/
def finalTexts (maxWords : Nat) (t : List String) : List (List String) :=
  let rawSegments := sentenceBoundarySplit t
  let refined := rawSegments.flatMap (fun seg =>
    if maxWords < seg.length then splitOnClauses maxWords seg else [seg])
  let hardened := refined.flatMap (fun seg =>
    if maxWords < seg.length then hardSplit maxWords seg else [seg])
  mergeShortSegments hardened

/-- The per-segment loop of `_map_to_utterances`: assign words by
cumulative word count (`words[word_idx : word_idx + seg_word_count]`) and
take the segment bounds from its first/last word, falling back to the
original bounds when the segment got no words. -/
def mapGo (original : UtteranceInfo) : List (List String) → Nat → List UtteranceInfo
  | [], _ => []
  | t :: ts, wordIdx =>
    let segWords := ((original.words.drop wordIdx).take t.length)
    let bounds :=
      match segWords.head?, segWords.getLast? with
      | some w1, some w2 => (w1.start, w2.end_time)
      | _, _ => (original.start, original.end_time)
    { text := t
      start := bounds.1
      end_time := bounds.2
      speaker_label := original.speaker_label
      words := segWords } :: mapGo original ts (wordIdx + t.length)

/-- Overwrite the last segment's end with the original utterance end
(`utterances[-1]` rebuild). -/
def setLastEnd (e : Rat) : List UtteranceInfo → List UtteranceInfo
  | [] => []
  | [u] => [{ u with end_time := e }]
  | u :: v :: rest => u :: setLastEnd e (v :: rest)

/-- Pin the first segment's start and the last segment's end to the
original utterance bounds (the `if utterances:` block of
`_map_to_utterances`). -/
def pinBounds (original : UtteranceInfo) : List UtteranceInfo → List UtteranceInfo
  | [] => []
  | u :: rest => setLastEnd original.end_time ({ u with start := original.start } :: rest)

/-- `_map_to_utterances`. -/
def mapToUtterances (texts : List (List String)) (original : UtteranceInfo) :
    List UtteranceInfo :=
  pinBounds original (mapGo original texts 0)

/-- `_split_utterance`. -/
def splitUtterance (maxWords : Nat) (utt : UtteranceInfo) : List UtteranceInfo :=
  let fts := finalTexts maxWords utt.text
  if fts.length ≤ 1 then [utt] else mapToUtterances fts utt

/-- `split_utterances`. -/
def splitUtterances (maxWords : Nat) (utterances : List UtteranceInfo) :
    List UtteranceInfo :=
  utterances.flatMap (splitUtterance maxWords)

/-! ### Word-content preservation through the four splitting passes -/

theorem sentenceBoundarySplit_join : ∀ t : List String, (sentenceBoundarySplit t).flatten = t
  | [] => rfl
  | [w] => rfl
  | w1 :: w2 :: rest => by
    have ih := sentenceBoundarySplit_join (w2 :: rest)
    unfold sentenceBoundarySplit
    cases h : sentenceBoundarySplit (w2 :: rest) with
    | nil => rw [h] at ih; exact absurd ih (by simp)
    | cons g gs =>
      rw [h] at ih
      by_cases hb : isSentenceBoundary w1 w2
      · simp only [hb, if_true, List.flatten_cons, List.flatten] at ih ⊢
        simp [ih]
      · simp only [hb, if_false, List.flatten_cons, List.flatten] at ih ⊢
        simp [ih]

theorem splitOnClausesF_join (maxWords : Nat) :
    ∀ (fuel : Nat) (ws : List String), (splitOnClausesF maxWords fuel ws).flatten = ws := by
  intro fuel
  induction fuel with
  | zero => intro ws; simp [splitOnClausesF]
  | succ n ih =>
    intro ws
    rw [splitOnClausesF]
    by_cases hle : ws.length ≤ maxWords
    · rw [if_pos hle]; simp
    · rw [if_neg hle]
      cases hbp : boundaryPositions ws with
      | nil => simp
      | cons b bs =>
        simp only
        set best := pyMinBy (midDist (ws.length / 2)) b bs with hbest
        have hIf : ∀ seg : List String,
            (if maxWords < seg.length then splitOnClausesF maxWords n seg
              else [seg]).flatten = seg := by
          intro seg
          by_cases hc : maxWords < seg.length
          · rw [if_pos hc]; exact ih seg
          · rw [if_neg hc]; simp
        rw [List.flatten_append]
        by_cases hre : (ws.drop (best + 1)).isEmpty
        · rw [if_pos hre, hIf]
          have hdrop : ws.drop (best + 1) = [] := List.isEmpty_iff.mp hre
          have htd := List.take_append_drop (best + 1) ws
          rw [hdrop] at htd
          simpa using htd
        · rw [if_neg hre, hIf, hIf]
          exact List.take_append_drop _ _

theorem hardSplitGo_join (maxWords : Nat) (hm : 1 ≤ maxWords) :
    ∀ (fuel : Nat) (ws : List String), ws.length ≤ fuel →
      (hardSplitGo maxWords fuel ws).flatten = ws := by
  intro fuel
  induction fuel with
  | zero =>
    intro ws hws
    have : ws = [] := List.eq_nil_of_length_eq_zero (Nat.le_zero.mp hws)
    simp [this, hardSplitGo]
  | succ n ih =>
    intro ws hws
    cases ws with
    | nil => simp [hardSplitGo]
    | cons x xs =>
      simp only [hardSplitGo, List.flatten_cons]
      rw [ih ((x :: xs).drop maxWords)
        (by
          have : ((x :: xs).drop maxWords).length = (x :: xs).length - maxWords := by
            simp
          omega)]
      exact List.take_append_drop _ _

theorem hardSplit_join (maxWords : Nat) (ws : List String) :
    (hardSplit maxWords ws).flatten = ws := by
  unfold hardSplit
  by_cases h : maxWords = 0
  · simp [h]
  · simp only [h, if_false]
    exact hardSplitGo_join maxWords (Nat.one_le_iff_ne_zero.mpr h) ws.length ws le_rfl

theorem mergeShortGo_join : ∀ (fuel : Nat) (merged segs : List (List String)),
    (mergeShortGo fuel merged segs).flatten = merged.reverse.flatten ++ segs.flatten := by
  intro fuel
  induction fuel with
  | zero =>
    intro merged segs
    cases segs with
    | nil => simp [mergeShortGo]
    | cons seg rest => simp [mergeShortGo]
  | succ n ih =>
    intro merged segs
    cases segs with
    | nil => simp [mergeShortGo]
    | cons seg rest =>
      simp only [mergeShortGo]
      by_cases h : seg.length < MIN_SEGMENT_WORDS
      · simp only [h, if_true]
        cases merged with
        | cons m ms => simp [ih]
        | nil =>
          cases rest with
          | cons next rest' => simp [ih]
          | nil => simp
      · simp only [h, if_false]
        simp [ih]

theorem mergeShortSegments_join (segs : List (List String)) :
    (mergeShortSegments segs).flatten = segs.flatten := by
  unfold mergeShortSegments
  by_cases h : segs.length ≤ 1
  · simp [h]
  · simp [h, mergeShortGo_join]

theorem join_flatMap_eq {f : List String → List (List String)}
    (hf : ∀ s, (f s).flatten = s) :
    ∀ l : List (List String), (l.flatMap f).flatten = l.flatten := by
  intro l
  induction l with
  | nil => rfl
  | cons x xs ih => simp [List.flatMap_cons, ih, hf]

/-- Every pass of `_split_utterance` preserves the utterance's word
content: the final segments concatenate back to the original token
list. -/
theorem finalTexts_join (maxWords : Nat) (t : List String) :
    (finalTexts maxWords t).flatten = t := by
  unfold finalTexts
  rw [mergeShortSegments_join]
  rw [join_flatMap_eq (fun s => by
    by_cases h : maxWords < s.length <;> simp [h, hardSplit_join])]
  rw [join_flatMap_eq (fun s => by
    by_cases h : maxWords < s.length <;>
      simp [h, splitOnClauses, splitOnClausesF_join])]
  exact sentenceBoundarySplit_join t

/-! ### Timestamp remapping lemmas -/

theorem mapGo_map_text (original : UtteranceInfo) :
    ∀ (ts : List (List String)) (wordIdx : Nat),
      (mapGo original ts wordIdx).map (fun u => u.text) = ts := by
  intro ts
  induction ts with
  | nil => intro _; rfl
  | cons t ts ih => intro wordIdx; simp [mapGo, ih]

theorem mapGo_map_words (original : UtteranceInfo) :
    ∀ (ts : List (List String)) (wordIdx : Nat),
      ((mapGo original ts wordIdx).map (fun u => u.words)).flatten
        = (original.words.drop wordIdx).take ((ts.map List.length).sum) := by
  intro ts
  induction ts with
  | nil => intro _; simp [mapGo]
  | cons t ts ih =>
    intro wordIdx
    simp only [mapGo, List.map_cons, List.flatten_cons, ih, List.sum_cons]
    rw [List.take_add]
    congr 1
    rw [List.drop_drop]

theorem mapGo_length (original : UtteranceInfo) :
    ∀ (ts : List (List String)) (wordIdx : Nat),
      (mapGo original ts wordIdx).length = ts.length := by
  intro ts
  induction ts with
  | nil => intro _; rfl
  | cons t ts ih => intro wordIdx; simp [mapGo, ih]

theorem mapGo_speaker (original : UtteranceInfo) :
    ∀ (ts : List (List String)) (wordIdx : Nat),
      ∀ u ∈ mapGo original ts wordIdx, u.speaker_label = original.speaker_label := by
  intro ts
  induction ts with
  | nil => intro _ u hu; simp [mapGo] at hu
  | cons t ts ih =>
    intro wordIdx u hu
    simp only [mapGo, List.mem_cons] at hu
    rcases hu with rfl | hu
    · rfl
    · exact ih _ u hu

theorem mapGo_fallback (original : UtteranceInfo) :
    ∀ (ts : List (List String)) (wordIdx : Nat),
      ∀ u ∈ mapGo original ts wordIdx, u.words = [] →
        u.start = original.start ∧ u.end_time = original.end_time := by
  intro ts
  induction ts with
  | nil => intro _ u hu; simp [mapGo] at hu
  | cons t ts ih =>
    intro wordIdx u hu
    simp only [mapGo, List.mem_cons] at hu
    rcases hu with rfl | hu
    · intro hwords
      simp only at hwords
      simp [hwords]
    · exact ih _ u hu

theorem setLastEnd_map_f {α : Type} (f : UtteranceInfo → α)
    (hf : ∀ (u : UtteranceInfo) (e : Rat), f { u with end_time := e } = f u) (e : Rat) :
    ∀ us : List UtteranceInfo, (setLastEnd e us).map f = us.map f
  | [] => rfl
  | [u] => by simp [setLastEnd, hf]
  | u :: v :: rest => by
    simp only [setLastEnd, List.map_cons]
    rw [setLastEnd_map_f f hf e (v :: rest)]
    simp

theorem setLastEnd_getLast?_end (e : Rat) :
    ∀ us : List UtteranceInfo, us ≠ [] →
      ((setLastEnd e us).getLast?).map (fun u => u.end_time) = some e
  | [], h => absurd rfl h
  | [u], _ => by simp [setLastEnd]
  | u :: v :: rest, _ => by
    have ih := setLastEnd_getLast?_end e (v :: rest) (by simp)
    simp only [setLastEnd]
    cases hsl : setLastEnd e (v :: rest) with
    | nil => rw [hsl] at ih; simp at ih
    | cons w ws =>
      rw [hsl] at ih
      rw [List.getLast?_cons_cons]
      exact ih

theorem setLastEnd_fallback (o : UtteranceInfo) :
    ∀ us : List UtteranceInfo,
      (∀ u ∈ us, u.words = [] → u.start = o.start ∧ u.end_time = o.end_time) →
      ∀ u ∈ setLastEnd o.end_time us, u.words = [] →
        u.start = o.start ∧ u.end_time = o.end_time
  | [], _, u, hu => by simp [setLastEnd] at hu
  | [v], hP, u, hu => by
    simp only [setLastEnd, List.mem_singleton] at hu
    subst hu
    intro hwords
    simp only at hwords
    exact ⟨((hP v (by simp)) hwords).1, by simp⟩
  | v :: w :: rest, hP, u, hu => by
    simp only [setLastEnd, List.mem_cons] at hu
    rcases hu with rfl | hu
    · exact hP u (by simp)
    · exact setLastEnd_fallback o (w :: rest)
        (fun x hx => hP x (List.mem_cons_of_mem _ hx)) u hu

theorem pinBounds_map_f {α : Type} (f : UtteranceInfo → α)
    (hfe : ∀ (u : UtteranceInfo) (e : Rat), f { u with end_time := e } = f u)
    (hfs : ∀ (u : UtteranceInfo) (s : Rat), f { u with start := s } = f u)
    (o : UtteranceInfo) :
    ∀ us : List UtteranceInfo, (pinBounds o us).map f = us.map f := by
  intro us
  cases us with
  | nil => rfl
  | cons u rest =>
    simp only [pinBounds]
    rw [setLastEnd_map_f f hfe]
    simp [hfs]

theorem pinBounds_head?_start (o : UtteranceInfo) :
    ∀ us : List UtteranceInfo, us ≠ [] →
      ((pinBounds o us).head?).map (fun u => u.start) = some o.start := by
  intro us hus
  cases us with
  | nil => exact absurd rfl hus
  | cons u rest =>
    cases rest with
    | nil => simp [pinBounds, setLastEnd]
    | cons v rest' => simp [pinBounds, setLastEnd]

theorem pinBounds_getLast?_end (o : UtteranceInfo) :
    ∀ us : List UtteranceInfo, us ≠ [] →
      ((pinBounds o us).getLast?).map (fun u => u.end_time) = some o.end_time := by
  intro us hus
  cases us with
  | nil => exact absurd rfl hus
  | cons u rest =>
    simp only [pinBounds]
    exact setLastEnd_getLast?_end o.end_time _ (by simp)

theorem pinBounds_fallback (o : UtteranceInfo) :
    ∀ us : List UtteranceInfo,
      (∀ u ∈ us, u.words = [] → u.start = o.start ∧ u.end_time = o.end_time) →
      ∀ u ∈ pinBounds o us, u.words = [] →
        u.start = o.start ∧ u.end_time = o.end_time := by
  intro us hP u hu
  cases us with
  | nil => simp [pinBounds] at hu
  | cons v rest =>
    simp only [pinBounds] at hu
    refine setLastEnd_fallback o _ ?_ u hu
    intro x hx
    rcases List.mem_cons.mp hx with rfl | hx
    · intro hwords
      simp only at hwords
      exact ⟨by simp, ((hP v (by simp)) hwords).2⟩
    · exact hP x (List.mem_cons_of_mem _ hx)

end Splitter

/-! ## Snapshot merge engine (`app/services/progress_merger.py`)

Snapshots are the canonical export documents produced by
`SyncService._export_project`; their field set is fixed, so they are
modelled by structures whose optional string fields (`Option String`)
capture both a missing key and Python's `None`.  `some ""` is distinct
from `none`, which lets Python's truthiness tests (`or`, `if not ts`) be
modelled exactly.  Sentence/keyword/speaker dictionaries built by id keep,
for each distinct id, the last record with that id at the position of the
id's first occurrence — exactly `{x['id']: x for x in l}`. -/

namespace Merger

/-- Python truthiness of an optional string: `None` and `""` are falsy. -/
def truthyS : Option String → Bool
  | none => false
  | some s => s ≠ ""

/-- `a or b` on optional strings under Python truthiness. -/
def pyOr (a b : Option String) : Option String :=
  if truthyS a then a else b

/-- A keyword of the flat keyword list of a snapshot. -/
structure KeywordRec where
  kid : String
  word : String
  meaning_nl : String
  meaning_en : String
  sentence_id : String
  deriving Repr, DecidableEq

/-- A keyword embedded in a sentence's `keywords` list. -/
structure KwEmbed where
  word : String
  meaning_nl : String
  meaning_en : String
  deriving Repr, DecidableEq

/-- A sentence of a snapshot, with the canonical export field set. -/
structure SentenceRec where
  sid : String
  index : Nat
  text : String
  start_time : Rat
  end_time : Rat
  translation_en : Option String
  explanation_nl : Option String
  explanation_en : Option String
  speaker_id : Option String
  learned : Bool
  learn_count : Nat
  is_difficult : Bool
  review_count : Nat
  last_reviewed : Option String
  keywords : List KwEmbed
  deriving Repr, DecidableEq

/-- A speaker of a snapshot. -/
structure SpeakerRec where
  spid : String
  label : String
  display_name : Option String
  confidence : Rat
  evidence : Option String
  is_manual : Bool
  deriving Repr, DecidableEq

/-- The progress metadata block.  The canonical export always carries the
four keys below; `extra` models any further keys the selected block may
hold (the code copies the chosen side's dict and then overwrites exactly
the four canonical keys). -/
structure ProgressRec where
  total_sentences : Nat
  learned_sentences : Nat
  difficult_sentences : Nat
  last_sync : Option String
  extra : List (String × String)
  deriving Repr, DecidableEq

/-- A snapshot document. -/
structure Doc where
  id : Option String
  name : Option String
  status : Option String
  created_at : Option String
  updated_at : Option String
  sentences : List SentenceRec
  keywords : List KeywordRec
  speakers : List SpeakerRec
  progress : ProgressRec
  deriving Repr, DecidableEq

/-- `{s['id']: s for s in l}[i]` — the last record with id `i`. -/
def lookupLast (l : List SentenceRec) (i : String) : Option SentenceRec :=
  (l.filter (fun s => s.sid == i)).getLast?

/-- The distinct ids of a list in first-occurrence order (Python `set`
union of the two dicts' keys is unordered; the model fixes the
first-occurrence order, which is irrelevant after the final sort). -/
def pyDedup : List String → List String
  | [] => []
  | x :: xs => x :: (pyDedup xs).filter (fun y => y ≠ x)

/-- The `learned` value of an optional dict (`local_s.get('learned', False)`). -/
def optLearned (o : Option SentenceRec) : Bool := (o.map (·.learned)).getD false

/-- `local_s.get('learn_count', 0) or 0`. -/
def optLearnCount (o : Option SentenceRec) : Nat := (o.map (·.learn_count)).getD 0

/-- `local_s.get('is_difficult', False)`. -/
def optDifficult (o : Option SentenceRec) : Bool := (o.map (·.is_difficult)).getD false

/-- `local_s.get('review_count', 0) or 0`. -/
def optReviewCount (o : Option SentenceRec) : Nat := (o.map (·.review_count)).getD 0

/-- `local_s.get('last_reviewed')`. -/
def optLastReviewed (o : Option SentenceRec) : Option String := o.bind (·.last_reviewed)

/-- The `last_reviewed` reducer of `_merge_sentences`: the later of two
parseable timestamps, otherwise the remote one, and `local or remote` when
either is missing. -/
def mergeLastReviewed (parse : String → Option Int) (lo ro : Option SentenceRec) :
    Option String :=
  let llr := optLastReviewed lo
  let rlr := optLastReviewed ro
  if truthyS llr && truthyS rlr then
    match parse (llr.getD ""), parse (rlr.getD "") with
    | some ld, some rd => if rd ≤ ld then llr else rlr
    | _, _ => rlr
  else pyOr llr rlr

/-- Merge the two records (or the single record) carrying one sentence id:
base fields from local when present, progress fields by OR/max reducers. -/
def mergeOneSentence (parse : String → Option Int) (lo ro : Option SentenceRec) :
    Option SentenceRec :=
  (match lo with | some l => some l | none => ro).map (fun (base : SentenceRec) =>
    { base with
      learned := optLearned lo || optLearned ro
      learn_count := max (optLearnCount lo) (optLearnCount ro)
      is_difficult := optDifficult lo || optDifficult ro
      review_count := max (optReviewCount lo) (optReviewCount ro)
      last_reviewed := mergeLastReviewed parse lo ro })

/-- Stable insertion into a list sorted by `index`; together with
`sortByIndex` this models Python's stable `list.sort(key=...)`. -/
def insertByIndex (s : SentenceRec) : List SentenceRec → List SentenceRec
  | [] => [s]
  | t :: ts => if t.index < s.index then t :: insertByIndex s ts else s :: t :: ts

/-- `merged.sort(key=lambda s: s.get('index', s.get('idx', 0)))` — a stable
sort by the `index` field (canonical documents always carry `index`); any
two stable sorts by the same key agree, so insertion sort models Timsort. -/
def sortByIndex (l : List SentenceRec) : List SentenceRec :=
  l.foldr insertByIndex []

/-- `_merge_sentences`. -/
def mergeSentences (parse : String → Option Int)
    (localS remoteS : List SentenceRec) : List SentenceRec :=
  let allIds := pyDedup (localS.map (·.sid) ++ remoteS.map (·.sid))
  let merged := allIds.filterMap (fun i =>
    mergeOneSentence parse (lookupLast localS i) (lookupLast remoteS i))
  sortByIndex merged

/-- `{k['id']: k for k in l}.values()`: for each distinct id in
first-occurrence order, the last keyword with that id. -/
def kwDict (l : List KeywordRec) : List KeywordRec :=
  (pyDedup (l.map (·.kid))).filterMap (fun i =>
    (l.filter (fun k => k.kid == i)).getLast?)

/-- `_merge_keywords`: local keywords, then the remote-only ones. -/
def mergeKeywords (localK remoteK : List KeywordRec) : List KeywordRec :=
  kwDict localK ++
    (kwDict remoteK).filter (fun k => !(localK.map (·.kid)).contains k.kid)

/-- `speaker_map[id] = sp` on an ordered association list with unique ids:
an existing key keeps its position and takes the new value, a new key goes
to the end. -/
def updSpeaker (m : List SpeakerRec) (sp : SpeakerRec) : List SpeakerRec :=
  if (m.map (·.spid)).contains sp.spid then
    m.map (fun x => if x.spid == sp.spid then sp else x)
  else m ++ [sp]

/-- The remote pass of `_merge_speakers`: replace only when the remote
record is manual and the held one is not. -/
def updSpeakerRemote (m : List SpeakerRec) (sp : SpeakerRec) : List SpeakerRec :=
  match m.find? (fun x => x.spid == sp.spid) with
  | some held =>
    if sp.is_manual && !held.is_manual then
      m.map (fun x => if x.spid == sp.spid then sp else x)
    else m
  | none => m ++ [sp]

/-- `_merge_speakers`. -/
def mergeSpeakers (localSp remoteSp : List SpeakerRec) : List SpeakerRec :=
  let m := localSp.foldl updSpeaker []
  remoteSp.foldl updSpeakerRemote m

/-- `_merge_progress`: pick the block with the later parseable
`last_sync`, local-biased.  A document's progress block is always present
in the canonical shape (the `if local else {}` fallback is unreachable
there). -/
def mergeProgress (parse : String → Option Int) (lp rp : ProgressRec) : ProgressRec :=
  if truthyS lp.last_sync && truthyS rp.last_sync then
    match parse (lp.last_sync.getD ""), parse (rp.last_sync.getD "") with
    | some ld, some rd => if ld < rd then rp else lp
    | _, _ => lp
  else if truthyS rp.last_sync && !truthyS lp.last_sync then rp
  else lp

/-- `_earliest_timestamp`. -/
def earliestTimestamp (parse : String → Option Int) (ts1 ts2 : Option String) :
    Option String :=
  if !truthyS ts1 then ts2
  else if !truthyS ts2 then ts1
  else
    match parse (ts1.getD ""), parse (ts2.getD "") with
    | some d1, some d2 => if d1 ≤ d2 then ts1 else ts2
    | _, _ => pyOr ts1 ts2

/-- `ProgressMerger.merge`.  `parse` models `_parse_timestamp` /
`datetime.fromisoformat` and `now` the `datetime.now().isoformat()`
calls. -/
def merge (parse : String → Option Int) (now : String) (localD remoteD : Doc) : Doc :=
  let sentences := mergeSentences parse localD.sentences remoteD.sentences
  let p0 := mergeProgress parse localD.progress remoteD.progress
  { id := pyOr localD.id remoteD.id
    name := pyOr localD.name remoteD.name
    status :=
      if truthyS localD.status then localD.status
      else match remoteD.status with
           | some s => some s    -- `remote_data.get('status', 'ready')`: key present
           | none => some "ready"
    created_at := earliestTimestamp parse localD.created_at remoteD.created_at
    updated_at := some now
    sentences := sentences
    keywords := mergeKeywords localD.keywords remoteD.keywords
    speakers := mergeSpeakers localD.speakers remoteD.speakers
    progress :=
      { p0 with
        total_sentences := sentences.length
        learned_sentences := (sentences.filter (·.learned)).length
        difficult_sentences := (sentences.filter (·.is_difficult)).length
        last_sync := some now } }

/-- The canonical export shape produced by `SyncService._export_project`:
the status key is present, entity ids are unique, sentences are listed in
strictly increasing `index` order, and the progress aggregates agree with
the sentence list. -/
def Canonical (d : Doc) : Prop :=
  d.status.isSome = true ∧
  (d.sentences.map (·.sid)).Nodup ∧
  (d.keywords.map (·.kid)).Nodup ∧
  (d.speakers.map (·.spid)).Nodup ∧
  d.sentences.Chain' (fun a b => a.index < b.index) ∧
  d.progress.total_sentences = d.sentences.length ∧
  d.progress.learned_sentences = (d.sentences.filter (·.learned)).length ∧
  d.progress.difficult_sentences = (d.sentences.filter (·.is_difficult)).length

instance : DecidablePred Canonical := fun d =>
  inferInstanceAs (Decidable
    (d.status.isSome = true ∧
     (d.sentences.map (fun s : SentenceRec => s.sid)).Nodup ∧
     (d.keywords.map (fun k : KeywordRec => k.kid)).Nodup ∧
     (d.speakers.map (fun sp : SpeakerRec => sp.spid)).Nodup ∧
     d.sentences.Chain' (fun a b : SentenceRec => a.index < b.index) ∧
     d.progress.total_sentences = d.sentences.length ∧
     d.progress.learned_sentences = (d.sentences.filter (fun s => s.learned)).length ∧
     d.progress.difficult_sentences
       = (d.sentences.filter (fun s => s.is_difficult)).length))

/-- The document `d` with only its two document-level timestamp fields
replaced by the merge time. -/
def withSyncTimestamps (d : Doc) (now : String) : Doc :=
  { d with updated_at := some now, progress := { d.progress with last_sync := some now } }

/-! ### Lemmas about keyed lookups and first-occurrence deduplication -/

theorem pyOr_self (a : Option String) : pyOr a a = a := by
  unfold pyOr
  by_cases h : truthyS a <;> simp [h]

section KeyedLookup

variable {α : Type} (key : α → String)

theorem nodup_key_cons {y : α} {ys : List α}
    (hnd : ((y :: ys).map key).Nodup) :
    key y ∉ ys.map key ∧ (ys.map key).Nodup := by
  rw [List.map_cons] at hnd
  exact List.nodup_cons.mp hnd

theorem filter_key_eq_nil (l : List α) (i : String) (h : i ∉ l.map key) :
    l.filter (fun s => key s == i) = [] := by
  induction l with
  | nil => rfl
  | cons x xs ih =>
    simp only [List.map_cons, List.mem_cons, not_or] at h
    have hne : (key x == i) = false := by
      have : key x ≠ i := fun he => h.1 he.symm
      simp [this]
    simp [List.filter_cons, hne, ih h.2]

theorem lookupLast_key_self (l : List α) (x : α) (hnd : (l.map key).Nodup)
    (hx : x ∈ l) :
    (l.filter (fun s => key s == key x)).getLast? = some x := by
  induction l with
  | nil => cases hx
  | cons y ys ih =>
    obtain ⟨hy, hnd'⟩ := nodup_key_cons key hnd
    rcases List.mem_cons.mp hx with rfl | hx'
    · have h2 : ys.filter (fun s => key s == key x) = [] :=
        filter_key_eq_nil key ys (key x) hy
      simp [List.filter_cons, h2]
    · have hky : (key y == key x) = false := by
        have : key y ≠ key x := fun he => hy (he ▸ List.mem_map_of_mem key hx')
        simp [this]
      rw [List.filter_cons]
      simp only [hky, Bool.false_eq_true, if_false]
      exact ih hnd' hx'

theorem lookupLast_key_mem (l : List α) (i : String) (x : α)
    (h : (l.filter (fun s => key s == i)).getLast? = some x) :
    x ∈ l ∧ key x = i := by
  have hx : x ∈ l.filter (fun s => key s == i) :=
    List.mem_of_mem_getLast? (by simp [h])
  have := List.mem_filter.mp hx
  exact ⟨this.1, by simpa using this.2⟩

theorem keys_filterMap_lookup_self (l : List α) (hnd : (l.map key).Nodup) :
    (l.map key).filterMap
      (fun i => (l.filter (fun s => key s == i)).getLast?) = l := by
  induction l with
  | nil => rfl
  | cons x xs ih =>
    obtain ⟨hx, hnd'⟩ := nodup_key_cons key hnd
    have hhead : ((x :: xs).filter (fun s => key s == key x)).getLast? = some x :=
      lookupLast_key_self key (x :: xs) x hnd (by simp)
    have hcong : ∀ i ∈ xs.map key,
        ((x :: xs).filter (fun s => key s == i)).getLast?
          = (xs.filter (fun s => key s == i)).getLast? := by
      intro i hi
      have : (key x == i) = false := by
        have : key x ≠ i := fun he => hx (he ▸ hi)
        simp [this]
      simp [List.filter_cons, this]
    simp only [List.map_cons, List.filterMap_cons, hhead]
    rw [List.filterMap_congr hcong, ih hnd']

theorem find?_key_self (l : List α) (x : α) (hnd : (l.map key).Nodup)
    (hx : x ∈ l) :
    l.find? (fun s => key s == key x) = some x := by
  induction l with
  | nil => cases hx
  | cons y ys ih =>
    obtain ⟨hy, hnd'⟩ := nodup_key_cons key hnd
    rcases List.mem_cons.mp hx with rfl | hx'
    · simp [List.find?_cons]
    · have hky : (key y == key x) = false := by
        have : key y ≠ key x := fun he => hy (he ▸ List.mem_map_of_mem key hx')
        simp [this]
      rw [List.find?_cons]
      simp only [hky, cond_false]
      exact ih hnd' hx'

end KeyedLookup

theorem mem_pyDedup : ∀ (l : List String) (a : String), a ∈ pyDedup l ↔ a ∈ l := by
  intro l
  induction l with
  | nil => intro a; simp [pyDedup]
  | cons x xs ih =>
    intro a
    simp only [pyDedup, List.mem_cons, List.mem_filter]
    constructor
    · rintro (rfl | ⟨ha, _⟩)
      · exact Or.inl rfl
      · exact Or.inr ((ih a).mp ha)
    · rintro (rfl | ha)
      · exact Or.inl rfl
      · by_cases hax : a = x
        · exact Or.inl hax
        · exact Or.inr ⟨(ih a).mpr ha, by simpa using hax⟩

theorem pyDedup_filter (p : String → Bool) :
    ∀ l : List String, (pyDedup l).filter p = pyDedup (l.filter p) := by
  intro l
  induction l with
  | nil => rfl
  | cons x xs ih =>
    by_cases hp : p x = true
    · simp only [pyDedup, List.filter_cons, hp, if_true]
      rw [List.filter_comm, ih]
    · have hp' : p x = false := by simpa using hp
      simp only [pyDedup, List.filter_cons, hp', Bool.false_eq_true, if_false]
      rw [List.filter_comm, ih, List.filter_eq_self]
      intro a ha
      have hpa : p a = true := (List.mem_filter.mp ((mem_pyDedup _ a).mp ha)).2
      have : a ≠ x := fun he => by rw [he, hp'] at hpa; cases hpa
      simpa using this

theorem pyDedup_append_subset :
    ∀ (l r : List String), (∀ a ∈ r, a ∈ l) → pyDedup (l ++ r) = pyDedup l
  | [], r, h => by
    have : r = [] := List.eq_nil_iff_forall_not_mem.mpr (fun a ha => by
      have := h a ha; simp at this)
    simp [this]
  | x :: xs, r, h => by
    simp only [List.cons_append, pyDedup]
    congr 1
    rw [pyDedup_filter, pyDedup_filter]
    simp only [List.append_eq, List.filter_append]
    have hsub : ∀ a ∈ r.filter (fun y => y ≠ x), a ∈ xs.filter (fun y => y ≠ x) := by
      intro a ha
      obtain ⟨har, hax⟩ := List.mem_filter.mp ha
      have := h a har
      rcases List.mem_cons.mp this with rfl | hmem
      · simp at hax
      · exact List.mem_filter.mpr ⟨hmem, hax⟩
    exact pyDedup_append_subset (xs.filter (fun y => y ≠ x)) (r.filter (fun y => y ≠ x)) hsub
termination_by l _ => l.length
decreasing_by
  simp only [List.length_cons]
  exact Nat.lt_succ_of_le (List.length_filter_le _ xs)

theorem pyDedup_eq_self : ∀ l : List String, l.Nodup → pyDedup l = l := by
  intro l
  induction l with
  | nil => intro _; rfl
  | cons x xs ih =>
    intro hnd
    obtain ⟨hx, hnd'⟩ := List.nodup_cons.mp hnd
    simp only [pyDedup, ih hnd']
    congr 1
    rw [List.filter_eq_self]
    intro a ha
    have : a ≠ x := fun he => hx (he ▸ ha)
    simpa using this

/-! ### Idempotence of the merge reducers -/

theorem mergeLastReviewed_self (parse : String → Option Int) (s : SentenceRec) :
    mergeLastReviewed parse (some s) (some s) = s.last_reviewed := by
  unfold mergeLastReviewed optLastReviewed
  simp only [Option.some_bind]
  generalize s.last_reviewed = lr
  cases lr with
  | none => simp [pyOr, truthyS]
  | some t =>
    by_cases ht : t = ""
    · subst ht; simp [truthyS, pyOr]
    · have htr : truthyS (some t) = true := by simp [truthyS, ht]
      simp only [htr, Bool.and_self, if_true, Option.getD_some]
      cases hp : parse t with
      | none => simp [hp]
      | some d => simp [hp]

theorem mergeOneSentence_self (parse : String → Option Int) (s : SentenceRec) :
    mergeOneSentence parse (some s) (some s) = some s := by
  unfold mergeOneSentence
  simp only [Option.map_some]
  rw [mergeLastReviewed_self]
  simp [optLearned, optLearnCount, optDifficult, optReviewCount]

theorem sortByIndex_of_chain :
    ∀ l : List SentenceRec, l.Chain' (fun a b => a.index < b.index) →
      sortByIndex l = l := by
  intro l
  induction l with
  | nil => intro _; rfl
  | cons x xs ih =>
    intro hch
    have hxs := List.Chain'.tail hch
    show insertByIndex x (sortByIndex xs) = x :: xs
    rw [ih hxs]
    cases xs with
    | nil => rfl
    | cons y ys =>
      have hxy : x.index < y.index := (List.chain'_cons.mp hch).1
      have : ¬ y.index < x.index := by omega
      simp [insertByIndex, this]

theorem mergeSentences_self (parse : String → Option Int) (l : List SentenceRec)
    (hnd : (l.map (fun s => s.sid)).Nodup)
    (hchain : l.Chain' (fun a b => a.index < b.index)) :
    mergeSentences parse l l = l := by
  have h1 : pyDedup (l.map (fun s => s.sid) ++ l.map (fun s => s.sid))
      = l.map (fun s => s.sid) := by
    rw [pyDedup_append_subset _ _ (fun a ha => ha), pyDedup_eq_self _ hnd]
  have h2 : ∀ i, mergeOneSentence parse (lookupLast l i) (lookupLast l i)
      = lookupLast l i := by
    intro i
    cases h : lookupLast l i with
    | none => simp [mergeOneSentence]
    | some s => exact mergeOneSentence_self parse s
  have h3 : (l.map (fun s => s.sid)).filterMap
      (fun i => mergeOneSentence parse (lookupLast l i) (lookupLast l i)) = l := by
    rw [List.filterMap_congr (fun i _ => h2 i)]
    exact keys_filterMap_lookup_self (fun s => s.sid) l hnd
  show sortByIndex
      ((pyDedup (l.map (fun s => s.sid) ++ l.map (fun s => s.sid))).filterMap
        (fun i => mergeOneSentence parse (lookupLast l i) (lookupLast l i))) = l
  rw [h1, h3]
  exact sortByIndex_of_chain l hchain

theorem kwDict_self (l : List KeywordRec) (hnd : (l.map (fun k => k.kid)).Nodup) :
    kwDict l = l := by
  unfold kwDict
  rw [pyDedup_eq_self _ hnd]
  exact keys_filterMap_lookup_self (fun k => k.kid) l hnd

theorem mergeKeywords_self (l : List KeywordRec)
    (hnd : (l.map (fun k => k.kid)).Nodup) :
    mergeKeywords l l = l := by
  unfold mergeKeywords
  rw [kwDict_self l hnd]
  have : l.filter (fun k => !(l.map (fun k => k.kid)).contains k.kid) = [] := by
    rw [List.filter_eq_nil_iff]
    intro k hk
    simp [List.mem_map_of_mem (fun k => k.kid) hk]
  rw [this]
  simp

theorem foldl_updSpeaker_self :
    ∀ (l acc : List SpeakerRec), ((acc ++ l).map (fun s => s.spid)).Nodup →
      l.foldl updSpeaker acc = acc ++ l := by
  intro l
  induction l with
  | nil => intro acc _; simp
  | cons x xs ih =>
    intro acc hnd
    have hx : x.spid ∉ acc.map (fun s => s.spid) := by
      intro hmem
      rw [List.map_append] at hnd
      exact (List.nodup_append.mp hnd).2.2 hmem (by simp)
    have hupd : updSpeaker acc x = acc ++ [x] := by
      unfold updSpeaker
      rw [if_neg]
      simp [hx]
    rw [List.foldl_cons, hupd, ih (acc ++ [x]) (by simpa using hnd)]
    simp

theorem foldl_updSpeakerRemote_self (m : List SpeakerRec)
    (hnd : (m.map (fun s => s.spid)).Nodup) :
    ∀ l : List SpeakerRec, (∀ sp ∈ l, sp ∈ m) →
      l.foldl updSpeakerRemote m = m := by
  intro l
  induction l with
  | nil => intro _; rfl
  | cons x xs ih =>
    intro h
    have hfind : m.find? (fun s => s.spid == x.spid) = some x :=
      find?_key_self (fun s => s.spid) m x hnd (h x (by simp))
    have hupd : updSpeakerRemote m x = m := by
      unfold updSpeakerRemote
      rw [hfind]
      simp
    rw [List.foldl_cons, hupd]
    exact ih (fun sp hsp => h sp (by simp [hsp]))

theorem mergeSpeakers_self (l : List SpeakerRec)
    (hnd : (l.map (fun s => s.spid)).Nodup) :
    mergeSpeakers l l = l := by
  unfold mergeSpeakers
  rw [foldl_updSpeaker_self l [] (by simpa using hnd)]
  simp only [List.nil_append]
  exact foldl_updSpeakerRemote_self l hnd l (fun sp hsp => hsp)

theorem mergeProgress_self (parse : String → Option Int) (p : ProgressRec) :
    mergeProgress parse p p = p := by
  unfold mergeProgress
  by_cases h : truthyS p.last_sync
  · simp only [h, Bool.and_self, if_true]
    cases hp : parse (p.last_sync.getD "") with
    | none => simp
    | some d => simp
  · simp [h]

theorem earliestTimestamp_self (parse : String → Option Int) (t : Option String) :
    earliestTimestamp parse t t = t := by
  unfold earliestTimestamp
  by_cases h : truthyS t
  · simp only [h, Bool.not_true, if_false, Bool.false_eq_true]
    cases hp : parse (t.getD "") with
    | none => simp [pyOr_self]
    | some d => simp
  · simp [h]

/-! ### Membership in the merged sentence list -/

theorem mem_insertByIndex (s a : SentenceRec) :
    ∀ l : List SentenceRec, a ∈ insertByIndex s l ↔ a = s ∨ a ∈ l := by
  intro l
  induction l with
  | nil => simp [insertByIndex]
  | cons t ts ih =>
    unfold insertByIndex
    by_cases h : t.index < s.index
    · simp only [h, if_true, List.mem_cons, ih]
      try tauto
    · simp only [h, if_false, List.mem_cons]
      try tauto

theorem mem_sortByIndex (a : SentenceRec) :
    ∀ l : List SentenceRec, a ∈ sortByIndex l ↔ a ∈ l := by
  intro l
  induction l with
  | nil => simp [sortByIndex]
  | cons x xs ih =>
    show a ∈ insertByIndex x (sortByIndex xs) ↔ _
    rw [mem_insertByIndex]
    simp only [ih, List.mem_cons]
    try tauto

theorem lookupLast_sid (l : List SentenceRec) (i : String) (s : SentenceRec)
    (h : lookupLast l i = some s) : s ∈ l ∧ s.sid = i := by
  unfold lookupLast at h
  have hx : s ∈ l.filter (fun t => t.sid == i) :=
    List.mem_of_mem_getLast? (by simp [h])
  have hmf := List.mem_filter.mp hx
  exact ⟨hmf.1, by simpa using hmf.2⟩

theorem mergeOneSentence_sid (parse : String → Option Int)
    (lo ro : Option SentenceRec) (i : String) (s : SentenceRec)
    (hlo : ∀ x, lo = some x → x.sid = i)
    (hro : ∀ x, ro = some x → x.sid = i)
    (h : mergeOneSentence parse lo ro = some s) : s.sid = i := by
  cases lo with
  | some la =>
    injection h with h'
    rw [← h']
    exact hlo la rfl
  | none =>
    cases ro with
    | none => simp [mergeOneSentence] at h
    | some rb =>
      injection h with h'
      rw [← h']
      exact hro rb rfl

theorem mergeOneSentence_fields (parse : String → Option Int)
    (la lb s : SentenceRec)
    (h : mergeOneSentence parse (some la) (some lb) = some s) :
    s.learned = (la.learned || lb.learned) ∧
    s.learn_count = max la.learn_count lb.learn_count ∧
    s.is_difficult = (la.is_difficult || lb.is_difficult) ∧
    s.review_count = max la.review_count lb.review_count := by
  injection h with h'
  rw [← h']
  exact ⟨rfl, rfl, rfl, rfl⟩

theorem mem_mergeSentences (parse : String → Option Int)
    (L R : List SentenceRec) (s : SentenceRec) :
    s ∈ mergeSentences parse L R ↔
      ∃ i ∈ pyDedup (L.map (fun s => s.sid) ++ R.map (fun s => s.sid)),
        mergeOneSentence parse (lookupLast L i) (lookupLast R i) = some s := by
  show s ∈ sortByIndex
      ((pyDedup (L.map (fun s => s.sid) ++ R.map (fun s => s.sid))).filterMap
        (fun i => mergeOneSentence parse (lookupLast L i) (lookupLast R i))) ↔ _
  rw [mem_sortByIndex, List.mem_filterMap]

end Merger

/-! ## Pipeline orchestrator (`app/services/processor.py`)

The external collaborators (audio extraction, the AssemblyAI transcriber,
the GPT speaker identifier, the explainer) are modelled by the outcomes
they produce, collected in a `PipelineEnv`: the transcriber outcome is a
function of the attempt number (so the retry wrapper is observable), the
identifier outcome is an `Except` whose `error` case covers every
exception the collaborator call can raise.  Database rows are modelled by
records; the uuid primary keys play no role in any claim and are omitted,
`Sentence.speaker_id` is represented by the diarization label it resolves
through `speaker_map`. -/

namespace Pipeline

/-- `SpeakerInfo` from the transcriber. -/
structure SpeakerInfo where
  label : String
  display_name : Option String
  confidence : Rat
  evidence : List String
  deriving Repr, DecidableEq

/-- `TranscriptionResult`. -/
structure TranscriptionResult where
  speakers : List SpeakerInfo
  utterances : List Splitter.UtteranceInfo
  deriving Repr, DecidableEq

/-- The trace of one `transcribe_with_retry` call: how many attempts ran,
which backoff delays were slept, and the final outcome. -/
instance : DecidableEq (Except String TranscriptionResult) := fun a b =>
  match a, b with
  | .ok x, .ok y =>
    if h : x = y then isTrue (by rw [h])
    else isFalse (fun hh => h (Except.ok.inj hh))
  | .error x, .error y =>
    if h : x = y then isTrue (by rw [h])
    else isFalse (fun hh => h (Except.error.inj hh))
  | .ok _, .error _ => isFalse (fun hh => Except.noConfusion hh)
  | .error _, .ok _ => isFalse (fun hh => Except.noConfusion hh)

/-- The trace of one `transcribe_with_retry` call: how many attempts ran,
which backoff delays were slept, and the final outcome. -/
structure RetryTrace where
  attemptsMade : Nat
  delays : List Rat
  result : Except String TranscriptionResult
  deriving Repr, DecidableEq

/-- The loop of `transcribe_with_retry` over the remaining attempt
indices; `delays` accumulates slept delays in reverse. -/
def retryAux (outcomes : Nat → Except String TranscriptionResult)
    (maxRetries : Nat) (retryDelay : Rat) :
    List Nat → Option String → List Rat → RetryTrace
  | [], lastError, delays =>
    ⟨maxRetries, delays.reverse,
      .error ("Transcription failed after " ++ toString maxRetries ++ " attempts: "
        ++ lastError.getD "None")⟩
  | i :: rest, _, delays =>
    match outcomes i with
    | .ok r => ⟨i + 1, delays.reverse, .ok r⟩
    | .error e =>
      retryAux outcomes maxRetries retryDelay rest (some e)
        (if i < maxRetries - 1 then (retryDelay * 2 ^ i) :: delays else delays)

/-- `AssemblyAITranscriber.transcribe_with_retry`: `max_retries` attempts,
exponential backoff `retry_delay * 2 ** attempt` between attempts, and a
typed `TranscriptionError` after exhaustion. -/
def transcribeWithRetry (outcomes : Nat → Except String TranscriptionResult)
    (maxRetries : Nat) (retryDelay : Rat) : RetryTrace :=
  retryAux outcomes maxRetries retryDelay (List.range maxRetries) none []

/-- A `Speaker` database row (uuid id omitted, see the namespace
comment). -/
structure SpeakerRow where
  label : String
  display_name : Option String
  confidence : Rat
  evidence : Option String
  is_manual : Bool
  deriving Repr, DecidableEq

/-- A `Sentence` database row as created by `_transcribe_audio`
(`speaker_id` carried as the resolved diarization label). -/
structure SentenceRow where
  idx : Nat
  text : List String
  start_time : Rat
  end_time : Rat
  speaker_id : Option String
  deriving Repr, DecidableEq

/-- One entry of the identifier's result map (`SpeakerIdentification`). -/
structure SpeakerIdentification where
  name : String
  role : String
  confidence : String
  evidence : String
  deriving Repr, DecidableEq

/-- `speaker.label in results` / `results[speaker.label]` on the result
map (its keys, speaker labels, are unique in a parsed response). -/
def lookupIdent (results : List (String × SpeakerIdentification)) (label : String) :
    Option SpeakerIdentification :=
  (results.find? (fun p => p.1 == label)).map (·.2)

/-- `json.dumps({"role": ..., "confidence": ..., "reasoning": ...})`. -/
def evidenceJson (r : SpeakerIdentification) : String :=
  "\x7b\"role\": \"" ++ r.role ++ "\", \"confidence\": \"" ++ r.confidence ++
    "\", \"reasoning\": \"" ++ r.evidence ++ "\"\x7d"

/-- The speaker-update pass of `_identify_speakers`: every speaker whose
label appears in the result map gets its `display_name` and `evidence`
overwritten — the source checks no `is_manual` flag here. -/
def applyIdentification (results : List (String × SpeakerIdentification))
    (speakers : List SpeakerRow) : List SpeakerRow :=
  speakers.map (fun sp =>
    match lookupIdent results sp.label with
    | some r => { sp with display_name := some r.name, evidence := some (evidenceJson r) }
    | none => sp)

/-- `Processor._identify_speakers`: early return when there are no
speakers or no sentences, every collaborator exception swallowed
(`except Exception`), otherwise the update pass. -/
def identifySpeakersStage (speakers : List SpeakerRow) (sentences : List SentenceRow)
    (identifyResult : Except String (List (String × SpeakerIdentification))) :
    List SpeakerRow :=
  if speakers.isEmpty || sentences.isEmpty then speakers
  else
    match identifyResult with
    | .error _ => speakers
    | .ok results => applyIdentification results speakers

/-- The collaborator outcomes a pipeline run observes. -/
structure PipelineEnv where
  extractResult : Except String Unit
  transcribeOutcomes : Nat → Except String TranscriptionResult
  identifyResult : Except String (List (String × SpeakerIdentification))
  explainResult : Except String Unit

/-- The observable state of one pipeline run: the project's current
status and error message, the created rows, and every status value
persisted through `_update_project_status` in order. -/
structure RunState where
  status : String
  error_message : Option String
  sentences : List SentenceRow
  speakers : List SpeakerRow
  statusTrace : List String
  deriving Repr, DecidableEq

/-- `_update_project_status`. -/
def persistStatus (st : RunState) (s : String) : RunState :=
  { st with status := s, statusTrace := st.statusTrace ++ [s] }

/-- The top-level `except` handler of `process_project`: persist status
`error` together with the `ProcessingError` message. -/
def failRun (st : RunState) (msg : String) : RunState :=
  { st with
    status := "error"
    error_message := some msg
    statusTrace := st.statusTrace ++ ["error"] }

/-- The `Speaker` rows created by `_transcribe_audio`
(`is_manual=False`; the evidence list is stored JSON-encoded, modelled by
an injective rendering). -/
def mkSpeakerRows (infos : List SpeakerInfo) : List SpeakerRow :=
  infos.map (fun si =>
    { label := si.label
      display_name := si.display_name
      confidence := si.confidence
      evidence := some (toString si.evidence)
      is_manual := false })

/-- The `Sentence` rows created by `_transcribe_audio`:
`enumerate(utterances)` with `speaker_map.get(utterance.speaker_label)`. -/
def mkSentenceRows (infos : List SpeakerInfo) (utts : List Splitter.UtteranceInfo) :
    List SentenceRow :=
  utts.enum.map (fun p =>
    { idx := p.1
      text := p.2.text
      start_time := p.2.start
      end_time := p.2.end_time
      speaker_id :=
        if (infos.map (·.label)).contains p.2.speaker_label
        then some p.2.speaker_label else none })

/-- `Processor.process_project`: the five stages with their persisted
statuses, the splitter invocation, and the top-level error handler.  The
explanation stage's sentence enrichment is not modelled (no claim touches
it); only its success or failure is. -/
def processProject (env : PipelineEnv) (maxRetries : Nat) (retryDelay : Rat)
    (maxWords : Nat) : RunState :=
  let st0 : RunState :=
    { status := "pending", error_message := none, sentences := [],
      speakers := [], statusTrace := [] }
  let st1 := persistStatus st0 "extracting"
  match env.extractResult with
  | .error e => failRun st1 ("Audio extraction failed: " ++ e)
  | .ok _ =>
    let st2 := persistStatus st1 "transcribing"
    match (transcribeWithRetry env.transcribeOutcomes maxRetries retryDelay).result with
    | .error e => failRun st2 ("Transcription failed: " ++ e)
    | .ok tr =>
      let speakers := mkSpeakerRows tr.speakers
      let utts := Splitter.splitUtterances maxWords tr.utterances
      let sentences := mkSentenceRows tr.speakers utts
      let st3 := persistStatus { st2 with speakers := speakers, sentences := sentences }
        "identifying"
      let st4 := { st3 with
        speakers := identifySpeakersStage st3.speakers st3.sentences env.identifyResult }
      let st5 := persistStatus st4 "explaining"
      match env.explainResult with
      | .error e => failRun st5 ("Explanation generation failed: " ++ e)
      | .ok _ => persistStatus st5 "ready"

/-- The status values accepted by the `Project` model's
`check_valid_status` check constraint
(`app/models/project.py`, `__table_args__`). -/
def validStatuses : List String :=
  ["pending", "extracting", "transcribing", "explaining", "ready", "error"]

/-! ### Retry-loop lemmas -/

theorem retryAux_exhausts (outcomes : Nat → Except String TranscriptionResult)
    (mr : Nat) (rd : Rat) :
    ∀ (l : List Nat) (le : Option String) (ds : List Rat),
      (∀ i ∈ l, ∃ e, outcomes i = .error e) →
      (retryAux outcomes mr rd l le ds).attemptsMade = mr ∧
      (retryAux outcomes mr rd l le ds).delays
        = ds.reverse ++ (l.filter (fun i => i < mr - 1)).map (fun i => rd * 2 ^ i) ∧
      ∃ msg, (retryAux outcomes mr rd l le ds).result = .error msg := by
  intro l
  induction l with
  | nil =>
    intro le ds _
    exact ⟨rfl, by simp [retryAux], ⟨_, rfl⟩⟩
  | cons i rest ih =>
    intro le ds h
    obtain ⟨e, he⟩ := h i (by simp)
    have hrest : ∀ j ∈ rest, ∃ e', outcomes j = .error e' :=
      fun j hj => h j (by simp [hj])
    simp only [retryAux, he]
    by_cases hc : i < mr - 1
    · rw [if_pos hc]
      have hrec := ih (some e) ((rd * 2 ^ i) :: ds) hrest
      refine ⟨hrec.1, ?_, hrec.2.2⟩
      rw [hrec.2.1]
      simp [List.filter_cons, hc]
    · rw [if_neg hc]
      have hrec := ih (some e) ds hrest
      refine ⟨hrec.1, ?_, hrec.2.2⟩
      rw [hrec.2.1]
      simp [List.filter_cons, hc]

theorem filter_range_pred :
    ∀ n : Nat, (List.range n).filter (fun i => i < n - 1) = List.range (n - 1) := by
  intro n
  cases n with
  | zero => rfl
  | succ m =>
    rw [List.range_succ, List.filter_append]
    simp only [Nat.succ_sub_one]
    have h1 : (List.range m).filter (fun i => decide (i < m)) = List.range m := by
      rw [List.filter_eq_self]
      intro a ha
      simpa using List.mem_range.mp ha
    have h2 : [m].filter (fun i => decide (i < m)) = [] := by simp
    rw [h1, h2, List.append_nil]

/-- Exhausting every attempt: exactly `max_retries` attempts run, the
slept delays double per attempt (`retry_delay * 2 ** attempt` for the
attempts before the last), and the wrapper ends in the typed
transcription error. -/
theorem transcribeWithRetry_exhausts
    (outcomes : Nat → Except String TranscriptionResult) (mr : Nat) (rd : Rat)
    (h : ∀ i, i < mr → ∃ e, outcomes i = .error e) :
    (transcribeWithRetry outcomes mr rd).attemptsMade = mr ∧
    (transcribeWithRetry outcomes mr rd).delays
      = (List.range (mr - 1)).map (fun i => rd * 2 ^ i) ∧
    ∃ msg, (transcribeWithRetry outcomes mr rd).result = .error msg := by
  have hmain := retryAux_exhausts outcomes mr rd (List.range mr) none []
    (fun i hi => h i (List.mem_range.mp hi))
  refine ⟨hmain.1, ?_, hmain.2.2⟩
  show (retryAux outcomes mr rd (List.range mr) none []).delays = _
  rw [hmain.2.1, filter_range_pred]
  simp

/-- An identification-collaborator exception is swallowed: the speaker
rows are returned unchanged. -/
theorem identifySpeakersStage_error (speakers : List SpeakerRow)
    (sentences : List SentenceRow) (e : String) :
    identifySpeakersStage speakers sentences (.error e) = speakers := by
  unfold identifySpeakersStage
  by_cases h : speakers.isEmpty || sentences.isEmpty <;> simp [h]

end Pipeline

/-! ## The claims -/

open Splitter

/-- The input of the repository's own test
`test_merge_does_not_exceed_max_words`, tokenized: a one-word sentence
followed by two ten-word sentences. -/
def c1Utt : UtteranceInfo :=
  { text := ["Ja.", "Een", "twee", "drie", "vier", "vijf", "zes", "zeven", "acht",
             "negen", "tien.", "Elf", "twaalf", "dertien", "veertien", "vijftien",
             "zestien", "zeventien", "achttien", "negentien", "twintig."]
    start := 0
    end_time := 21
    speaker_label := "A"
    words := [] }

/-- **C1** (code bug): with `max_words = 10` the splitter merges the short
segment `"Ja."` into the following ten-word segment without any budget
check, producing an 11-word output segment even though the input offered
sentence boundaries; `_merge_short_segments` never consults the budget, so
the claimed "merge only if the receiving segment stays within budget"
rule does not hold, and the repository's own tests
(`test_merge_does_not_exceed_max_words`,
`test_merge_short_segment_kept_when_neighbors_full`) fail on this code. -/
theorem C1_merge_exceeds_budget :
    (splitUtterance 10 c1Utt).map (fun u => u.text.length) = [11, 10] ∧
    ∃ u ∈ splitUtterance 10 c1Utt, 10 < u.text.length := by decide

/-- **C2**: whenever the splitter divides an utterance into two or more
segments and the word-timestamp list is not longer than the tokenized
text, the word timestamps are assigned to the segments in cumulative
order without loss (the final segment absorbing the remainder), the first
segment starts at the original start, the last segment ends at the
original end, word-less segments fall back to the original bounds, the
speaker label is copied to every segment, and the segments' texts
concatenate back to the original text's word content. -/
theorem C2_split_mapping_sound (maxWords : Nat) (utt : UtteranceInfo)
    (h2 : 2 ≤ (splitUtterance maxWords utt).length)
    (hw : utt.words.length ≤ utt.text.length) :
    ((splitUtterance maxWords utt).map (fun u => u.words)).flatten = utt.words ∧
    (splitUtterance maxWords utt).head?.map (fun u => u.start) = some utt.start ∧
    (splitUtterance maxWords utt).getLast?.map (fun u => u.end_time)
      = some utt.end_time ∧
    (∀ u ∈ splitUtterance maxWords utt, u.words = [] →
      u.start = utt.start ∧ u.end_time = utt.end_time) ∧
    (∀ u ∈ splitUtterance maxWords utt, u.speaker_label = utt.speaker_label) ∧
    ((splitUtterance maxWords utt).map (fun u => u.text)).flatten = utt.text := by
  by_cases hfts : (finalTexts maxWords utt.text).length ≤ 1
  · exfalso
    have hsu : splitUtterance maxWords utt = [utt] := by
      unfold splitUtterance
      simp [hfts]
    rw [hsu] at h2
    simp at h2
  · have hsu : splitUtterance maxWords utt
        = pinBounds utt (mapGo utt (finalTexts maxWords utt.text) 0) := by
      unfold splitUtterance mapToUtterances
      simp [hfts]
    have hne : finalTexts maxWords utt.text ≠ [] := by
      intro h0; rw [h0] at hfts; simp at hfts
    have hmne : mapGo utt (finalTexts maxWords utt.text) 0 ≠ [] := by
      intro h0
      have hlen := mapGo_length utt (finalTexts maxWords utt.text) 0
      rw [h0] at hlen
      exact hne (List.eq_nil_of_length_eq_zero hlen.symm)
    refine ⟨?_, ?_, ?_, ?_, ?_, ?_⟩
    · rw [hsu, pinBounds_map_f (fun u => u.words) (fun _ _ => rfl) (fun _ _ => rfl)]
      rw [mapGo_map_words]
      have hsum : ((finalTexts maxWords utt.text).map List.length).sum
          = utt.text.length := by
        rw [← List.length_flatten, finalTexts_join]
      rw [hsum, List.drop_zero]
      exact List.take_of_length_le hw
    · rw [hsu]; exact pinBounds_head?_start utt _ hmne
    · rw [hsu]; exact pinBounds_getLast?_end utt _ hmne
    · rw [hsu]
      exact pinBounds_fallback utt _ (mapGo_fallback utt _ 0)
    · rw [hsu]
      intro u hu
      have hmap := pinBounds_map_f (fun u => u.speaker_label)
        (fun _ _ => rfl) (fun _ _ => rfl) utt (mapGo utt (finalTexts maxWords utt.text) 0)
      have h1 : u.speaker_label
          ∈ (pinBounds utt (mapGo utt (finalTexts maxWords utt.text) 0)).map
              (fun u => u.speaker_label) :=
        List.mem_map_of_mem _ hu
      rw [hmap] at h1
      obtain ⟨v, hv, hveq⟩ := List.mem_map.mp h1
      rw [← hveq]
      exact mapGo_speaker utt _ 0 v hv
    · rw [hsu, pinBounds_map_f (fun u => u.text) (fun _ _ => rfl) (fun _ _ => rfl)]
      rw [mapGo_map_text]
      exact finalTexts_join maxWords utt.text

/-- A twelve-word utterance with two sentences and eleven word
timestamps (one fewer than the text's tokens). -/
def c2Utt : UtteranceInfo :=
  { text := ["Een", "twee", "drie", "vier", "vijf", "zes.", "Zeven", "acht",
             "negen", "tien", "elf", "twaalf."]
    start := 5
    end_time := 17
    speaker_label := "B"
    words := [⟨"Een", 5, 6⟩, ⟨"twee", 6, 7⟩, ⟨"drie", 7, 8⟩, ⟨"vier", 8, 9⟩,
              ⟨"vijf", 9, 10⟩, ⟨"zes.", 10, 11⟩, ⟨"Zeven", 11, 12⟩,
              ⟨"acht", 12, 13⟩, ⟨"negen", 13, 14⟩, ⟨"tien", 14, 15⟩,
              ⟨"elf", 15, 16⟩] }

theorem C2_split_mapping_sound_witness :
    (2 ≤ (splitUtterance 10 c2Utt).length ∧
      c2Utt.words.length ≤ c2Utt.text.length) ∧
    ((splitUtterance 10 c2Utt).map (fun u => u.words)).flatten = c2Utt.words :=
  ⟨⟨by decide, by decide⟩, (C2_split_mapping_sound 10 c2Utt (by decide) (by decide)).1⟩

/-- **C10**: when the four text passes leave at most one final segment,
the splitter returns the original utterance object unchanged, skipping
`_map_to_utterances` (and with it the remapping and pinning) entirely. -/
theorem C10_single_segment_passthrough (maxWords : Nat) (utt : UtteranceInfo)
    (h : (finalTexts maxWords utt.text).length ≤ 1) :
    splitUtterance maxWords utt = [utt] ∧
    splitUtterances maxWords [utt] = [utt] := by
  have h1 : splitUtterance maxWords utt = [utt] := by
    unfold splitUtterance
    simp [h]
  exact ⟨h1, by simp [splitUtterances, h1]⟩

/-- A two-token utterance that no pass splits. -/
def c10Utt : UtteranceInfo :=
  { text := ["Hallo", "wereld."]
    start := 0
    end_time := 2
    speaker_label := "A"
    words := [⟨"Hallo", 0, 1⟩, ⟨"wereld.", 1, 2⟩] }

theorem C10_single_segment_passthrough_witness :
    (finalTexts 10 c10Utt.text).length ≤ 1 ∧
    splitUtterance 10 c10Utt = [c10Utt] :=
  ⟨by decide, (C10_single_segment_passthrough 10 c10Utt (by decide)).1⟩

/-- **C3**: merging a canonical snapshot with itself reproduces it, except
for the document-level `updated_at` and the recomputed `last_sync`. -/
theorem C3_merge_idempotent (parse : String → Option Int) (now : String)
    (X : Merger.Doc) (hC : Merger.Canonical X) :
    Merger.merge parse now X X = Merger.withSyncTimestamps X now := by
  obtain ⟨hst, hsn, hkn, hspn, hchain, ht, hl, hd⟩ := hC
  have hsent := Merger.mergeSentences_self parse X.sentences hsn hchain
  have hkw := Merger.mergeKeywords_self X.keywords hkn
  have hsp := Merger.mergeSpeakers_self X.speakers hspn
  have hpr := Merger.mergeProgress_self parse X.progress
  have hst' : (if Merger.truthyS X.status then X.status
      else match X.status with | some s => some s | none => some "ready")
      = X.status := by
    cases hS : X.status with
    | none => rw [hS] at hst; simp at hst
    | some s => by_cases hs : Merger.truthyS (some s) <;> simp [hs]
  unfold Merger.merge Merger.withSyncTimestamps
  simp only [hsent, hkw, hsp, hpr, hst', Merger.pyOr_self,
    Merger.earliestTimestamp_self]
  rw [← ht, ← hl, ← hd]

/-- A small canonical snapshot: one learned sentence, one keyword, one
speaker, consistent progress aggregates. -/
def c3Doc : Merger.Doc :=
  { id := some "p1"
    name := some "Test Project"
    status := some "ready"
    created_at := some "2026-01-01T00:00:00"
    updated_at := some "2026-01-02T00:00:00"
    sentences := [
      { sid := "s1"
        index := 0
        text := "Hallo wereld"
        start_time := 0
        end_time := 2
        translation_en := some "Hello world"
        explanation_nl := none
        explanation_en := none
        speaker_id := some "sp1"
        learned := true
        learn_count := 3
        is_difficult := false
        review_count := 1
        last_reviewed := some "2026-01-03T00:00:00"
        keywords := [⟨"hallo", "groet", "greeting"⟩] }]
    keywords := [
      { kid := "k1"
        word := "hallo"
        meaning_nl := "groet"
        meaning_en := "greeting"
        sentence_id := "s1" }]
    speakers := [
      { spid := "sp1"
        label := "A"
        display_name := some "Jan"
        confidence := 1
        evidence := none
        is_manual := false }]
    progress :=
      { total_sentences := 1
        learned_sentences := 1
        difficult_sentences := 0
        last_sync := some "2026-01-04T00:00:00"
        extra := [("note", "kept")] } }

def c3parse : String → Option Int := fun _ => none

theorem C3_merge_idempotent_witness :
    Merger.Canonical c3Doc ∧
    Merger.merge c3parse "NOW" c3Doc c3Doc = Merger.withSyncTimestamps c3Doc "NOW" :=
  ⟨⟨rfl, by simp [c3Doc], by simp [c3Doc], by simp [c3Doc], by simp [c3Doc],
      rfl, rfl, rfl⟩,
    C3_merge_idempotent c3parse "NOW" c3Doc
      ⟨rfl, by simp [c3Doc], by simp [c3Doc], by simp [c3Doc], by simp [c3Doc],
        rfl, rfl, rfl⟩⟩

/-- **C4**: for a sentence id present in both snapshots, `merge(A,B)` and
`merge(B,A)` agree on the four progress reducers (`learned` OR,
`learn_count` max, `is_difficult` OR, `review_count` max); a merged
sentence with that id exists in both directions. -/
theorem C4_merge_reducers_symmetric (parse : String → Option Int) (now : String)
    (A B : Merger.Doc) (sid : String) (la lb : Merger.SentenceRec)
    (hA : Merger.lookupLast A.sentences sid = some la)
    (hB : Merger.lookupLast B.sentences sid = some lb) :
    (∃ s ∈ (Merger.merge parse now A B).sentences, s.sid = sid) ∧
    (∃ s ∈ (Merger.merge parse now B A).sentences, s.sid = sid) ∧
    (∀ s1 ∈ (Merger.merge parse now A B).sentences,
     ∀ s2 ∈ (Merger.merge parse now B A).sentences,
      s1.sid = sid → s2.sid = sid →
      s1.learned = s2.learned ∧ s1.learn_count = s2.learn_count ∧
      s1.is_difficult = s2.is_difficult ∧ s1.review_count = s2.review_count) := by
  have hla := Merger.lookupLast_sid A.sentences sid la hA
  have hlb := Merger.lookupLast_sid B.sentences sid lb hB
  have hsentAB : (Merger.merge parse now A B).sentences
      = Merger.mergeSentences parse A.sentences B.sentences := rfl
  have hsentBA : (Merger.merge parse now B A).sentences
      = Merger.mergeSentences parse B.sentences A.sentences := rfl
  have hiAB : sid ∈ Merger.pyDedup
      (A.sentences.map (fun s => s.sid) ++ B.sentences.map (fun s => s.sid)) := by
    rw [Merger.mem_pyDedup]
    exact List.mem_append_left _ (hla.2 ▸ List.mem_map_of_mem _ hla.1)
  have hiBA : sid ∈ Merger.pyDedup
      (B.sentences.map (fun s => s.sid) ++ A.sentences.map (fun s => s.sid)) := by
    rw [Merger.mem_pyDedup]
    exact List.mem_append_left _ (hlb.2 ▸ List.mem_map_of_mem _ hlb.1)
  refine ⟨?_, ?_, ?_⟩
  · obtain ⟨t, hteq⟩ : ∃ t, Merger.mergeOneSentence parse (some la) (some lb) = some t :=
      ⟨_, rfl⟩
    refine ⟨t, ?_, ?_⟩
    · rw [hsentAB, Merger.mem_mergeSentences]
      exact ⟨sid, hiAB, by rw [hA, hB]; exact hteq⟩
    · exact Merger.mergeOneSentence_sid parse (some la) (some lb) sid t
        (fun x hx => by cases hx; exact hla.2)
        (fun x hx => by cases hx; exact hlb.2) hteq
  · obtain ⟨t, hteq⟩ : ∃ t, Merger.mergeOneSentence parse (some lb) (some la) = some t :=
      ⟨_, rfl⟩
    refine ⟨t, ?_, ?_⟩
    · rw [hsentBA, Merger.mem_mergeSentences]
      exact ⟨sid, hiBA, by rw [hA, hB]; exact hteq⟩
    · exact Merger.mergeOneSentence_sid parse (some lb) (some la) sid t
        (fun x hx => by cases hx; exact hlb.2)
        (fun x hx => by cases hx; exact hla.2) hteq
  · intro s1 h1 s2 h2 hs1 hs2
    rw [hsentAB, Merger.mem_mergeSentences] at h1
    rw [hsentBA, Merger.mem_mergeSentences] at h2
    obtain ⟨i1, hi1, hf1⟩ := h1
    obtain ⟨i2, hi2, hf2⟩ := h2
    have hsid1 : s1.sid = i1 :=
      Merger.mergeOneSentence_sid parse _ _ i1 s1
        (fun x hx => (Merger.lookupLast_sid _ _ _ hx).2)
        (fun x hx => (Merger.lookupLast_sid _ _ _ hx).2) hf1
    have hsid2 : s2.sid = i2 :=
      Merger.mergeOneSentence_sid parse _ _ i2 s2
        (fun x hx => (Merger.lookupLast_sid _ _ _ hx).2)
        (fun x hx => (Merger.lookupLast_sid _ _ _ hx).2) hf2
    have hi1' : i1 = sid := by rw [← hsid1, hs1]
    have hi2' : i2 = sid := by rw [← hsid2, hs2]
    subst hi1'; subst hi2'
    rw [hA, hB] at hf1 hf2
    obtain ⟨e1l, e1c, e1d, e1r⟩ := Merger.mergeOneSentence_fields parse la lb s1 hf1
    obtain ⟨e2l, e2c, e2d, e2r⟩ := Merger.mergeOneSentence_fields parse lb la s2 hf2
    refine ⟨?_, ?_, ?_, ?_⟩
    · rw [e1l, e2l, Bool.or_comm]
    · rw [e1c, e2c, Nat.max_comm]
    · rw [e1d, e2d, Bool.or_comm]
    · rw [e1r, e2r, Nat.max_comm]

/-- Shared minimal progress block for the merge-claim fixtures. -/
def emptyProgress : Merger.ProgressRec :=
  { total_sentences := 0
    learned_sentences := 0
    difficult_sentences := 0
    last_sync := none
    extra := [] }

/-- A base snapshot for the merge-claim fixtures. -/
def baseDoc : Merger.Doc :=
  { id := some "p1"
    name := some "Test"
    status := some "ready"
    created_at := none
    updated_at := none
    sentences := []
    keywords := []
    speakers := []
    progress := emptyProgress }

def c4parse : String → Option Int := fun _ => none

def c4la : Merger.SentenceRec :=
  { sid := "s1"
    index := 0
    text := "Hallo"
    start_time := 0
    end_time := 1
    translation_en := none
    explanation_nl := none
    explanation_en := none
    speaker_id := none
    learned := false
    learn_count := 3
    is_difficult := true
    review_count := 2
    last_reviewed := none
    keywords := [] }

def c4lb : Merger.SentenceRec :=
  { c4la with learned := true, learn_count := 5, is_difficult := false, review_count := 7 }

def c4A : Merger.Doc := { baseDoc with sentences := [c4la] }

def c4B : Merger.Doc := { baseDoc with sentences := [c4lb] }

theorem C4_merge_reducers_symmetric_witness :
    (Merger.lookupLast c4A.sentences "s1" = some c4la ∧
      Merger.lookupLast c4B.sentences "s1" = some c4lb) ∧
    (∃ s ∈ (Merger.merge c4parse "T" c4A c4B).sentences, s.sid = "s1") :=
  ⟨⟨by decide, by decide⟩,
    (C4_merge_reducers_symmetric c4parse "T" c4A c4B "s1" c4la c4lb
      (by decide) (by decide)).1⟩

def c5parse : String → Option Int := fun _ => none

def c5Local : Merger.Doc := { baseDoc with name := some "" }

def c5Remote : Merger.Doc := { baseDoc with name := some "Remote Name" }

/-- **C5** counterexample: a local snapshot whose `name` is the empty
string does not win; `name` is computed with Python `or`, so the remote
name is taken. -/
theorem C5_empty_local_name_loses :
    (Merger.merge c5parse "T" c5Local c5Remote).name = some "Remote Name" ∧
    c5Local.name = some "" ∧
    (Merger.merge c5parse "T" c5Local c5Remote).name ≠ c5Local.name ∧
    c5Local.id = c5Remote.id := by decide

/-- **C5** as amended: the merged `name` and `status` equal the local
snapshot's only when the local values are truthy (present and non-empty);
an empty or missing local value falls back to the remote one (and
`status` to `"ready"` when missing on both sides). -/
theorem C5_local_name_status_win_when_truthy (parse : String → Option Int)
    (now : String) (L R : Merger.Doc)
    (hn : Merger.truthyS L.name = true) (hs : Merger.truthyS L.status = true) :
    (Merger.merge parse now L R).name = L.name ∧
    (Merger.merge parse now L R).status = L.status := by
  constructor
  · show Merger.pyOr L.name R.name = L.name
    unfold Merger.pyOr
    rw [if_pos hn]
  · show (if Merger.truthyS L.status then L.status
      else match R.status with | some s => some s | none => some "ready") = L.status
    rw [if_pos hs]

def c5wLocal : Merger.Doc := { baseDoc with name := some "Lokale Naam" }

def c5wRemote : Merger.Doc := { baseDoc with name := some "Remote Naam" }

theorem C5_local_name_status_win_when_truthy_witness :
    (Merger.truthyS c5wLocal.name = true ∧ Merger.truthyS c5wLocal.status = true) ∧
    (Merger.merge c5parse "T" c5wLocal c5wRemote).name = c5wLocal.name :=
  ⟨⟨by decide, by decide⟩,
    (C5_local_name_status_win_when_truthy c5parse "T" c5wLocal c5wRemote
      (by decide) (by decide)).1⟩

open Pipeline

def c6Speaker : SpeakerRow :=
  { label := "A"
    display_name := some "User Set"
    confidence := 1
    evidence := none
    is_manual := true }

def c6Sentence : SentenceRow :=
  { idx := 0
    text := ["Hallo."]
    start_time := 0
    end_time := 1
    speaker_id := some "A" }

def c6Result : SpeakerIdentification :=
  { name := "Jan de Vries"
    role := "Host"
    confidence := "high"
    evidence := "introduced himself" }

/-- **C6** counterexample: `_identify_speakers` overwrites the
display name of a speaker whose `is_manual` flag is true as soon as the
collaborator returns a result for its label — the update loop never
consults `is_manual`, so the claimed manual lock does not exist in the
identification stage. -/
theorem C6_manual_speaker_overwritten :
    c6Speaker.is_manual = true ∧
    (identifySpeakersStage [c6Speaker] [c6Sentence]
        (.ok [("A", c6Result)])).map (fun sp => sp.display_name)
      = [some "Jan de Vries"] ∧
    c6Speaker.display_name = some "User Set" := by decide

/-- **C6** as amended: the identification stage overwrites
`display_name` and `evidence` for every speaker whose label appears in
the collaborator's result map, regardless of the `is_manual` flag; the
manual lock is enforced only elsewhere (sync import), not here. -/
theorem C6_identify_ignores_manual_lock
    (speakers : List SpeakerRow) (sentences : List SentenceRow)
    (results : List (String × SpeakerIdentification)) (sp : SpeakerRow)
    (r : SpeakerIdentification)
    (hsp : sp ∈ speakers) (hsent : sentences ≠ [])
    (hr : lookupIdent results sp.label = some r) :
    { sp with display_name := some r.name, evidence := some (evidenceJson r) }
      ∈ identifySpeakersStage speakers sentences (.ok results) := by
  unfold identifySpeakersStage
  have h1 : speakers.isEmpty = false := by
    cases speakers with
    | nil => cases hsp
    | cons a as => rfl
  have h2 : sentences.isEmpty = false := by
    cases sentences with
    | nil => exact absurd rfl hsent
    | cons a as => rfl
  rw [h1, h2]
  simp only [Bool.or_self, Bool.false_eq_true, if_false]
  unfold applyIdentification
  refine List.mem_map.mpr ⟨sp, hsp, ?_⟩
  rw [hr]

theorem C6_identify_ignores_manual_lock_witness :
    (c6Speaker ∈ [c6Speaker] ∧ ([c6Sentence] : List SentenceRow) ≠ [] ∧
      lookupIdent [("A", c6Result)] c6Speaker.label = some c6Result) ∧
    { c6Speaker with
        display_name := some c6Result.name
        evidence := some (evidenceJson c6Result) }
      ∈ identifySpeakersStage [c6Speaker] [c6Sentence] (.ok [("A", c6Result)]) :=
  ⟨⟨by decide, by decide, by decide⟩,
    C6_identify_ignores_manual_lock [c6Speaker] [c6Sentence] [("A", c6Result)]
      c6Speaker c6Result (by decide) (by decide) (by decide)⟩

/-- **C7**: when the transcription collaborator fails on every attempt,
the retry wrapper runs exactly `max_retries` attempts with the backoff
delay doubling per attempt and ends in the typed transcription error;
the pipeline then persists status `error` with a transcription-failure
message and creates no sentences. -/
theorem C7_transcription_retry_exhaustion (env : PipelineEnv)
    (maxRetries : Nat) (retryDelay : Rat) (maxWords : Nat) (es : Nat → String)
    (hfail : ∀ i, i < maxRetries → env.transcribeOutcomes i = .error (es i))
    (hex : env.extractResult = .ok ()) :
    (transcribeWithRetry env.transcribeOutcomes maxRetries retryDelay).attemptsMade
      = maxRetries ∧
    (transcribeWithRetry env.transcribeOutcomes maxRetries retryDelay).delays
      = (List.range (maxRetries - 1)).map (fun i => retryDelay * 2 ^ i) ∧
    ∃ msg,
      (transcribeWithRetry env.transcribeOutcomes maxRetries retryDelay).result
        = .error msg ∧
      (processProject env maxRetries retryDelay maxWords).status = "error" ∧
      (processProject env maxRetries retryDelay maxWords).error_message
        = some ("Transcription failed: " ++ msg) ∧
      (processProject env maxRetries retryDelay maxWords).sentences = [] ∧
      (processProject env maxRetries retryDelay maxWords).statusTrace
        = ["extracting", "transcribing", "error"] := by
  have hmain := transcribeWithRetry_exhausts env.transcribeOutcomes maxRetries
    retryDelay (fun i hi => ⟨es i, hfail i hi⟩)
  obtain ⟨msg, hmsg⟩ := hmain.2.2
  refine ⟨hmain.1, hmain.2.1, msg, hmsg, ?_, ?_, ?_, ?_⟩ <;>
    simp [processProject, hex, hmsg, persistStatus, failRun]

def c7Env : PipelineEnv :=
  { extractResult := .ok ()
    transcribeOutcomes := fun _ => .error "boom"
    identifyResult := .ok []
    explainResult := .ok () }

theorem C7_transcription_retry_exhaustion_witness :
    ((∀ i, i < 3 → c7Env.transcribeOutcomes i = .error "boom") ∧
      c7Env.extractResult = .ok ()) ∧
    ((transcribeWithRetry c7Env.transcribeOutcomes 3 2).attemptsMade = 3 ∧
      (transcribeWithRetry c7Env.transcribeOutcomes 3 2).delays = [2, 4]) := by
  have h := C7_transcription_retry_exhaustion c7Env 3 2 100 (fun _ => "boom")
    (fun i _ => rfl) rfl
  refine ⟨⟨fun i _ => rfl, rfl⟩, h.1, ?_⟩
  rw [h.2.1]
  norm_num [List.range_succ]

/-- **C8**: an identification-collaborator exception is swallowed: the
run still reaches status `ready` (given the other stages succeed), the
speakers keep the display names the transcription stage created, and —
second conjunct — the run's status, status trace and sentence rows never
depend on the identification outcome at all. -/
theorem C8_identification_never_fails_pipeline (env : PipelineEnv)
    (maxRetries : Nat) (retryDelay : Rat) (maxWords : Nat)
    (e : String) (tr : TranscriptionResult)
    (hex : env.extractResult = .ok ())
    (htr : (transcribeWithRetry env.transcribeOutcomes maxRetries retryDelay).result
      = .ok tr)
    (hid : env.identifyResult = .error e)
    (hxp : env.explainResult = .ok ()) :
    ((processProject env maxRetries retryDelay maxWords).status = "ready" ∧
     (processProject env maxRetries retryDelay maxWords).error_message = none ∧
     (processProject env maxRetries retryDelay maxWords).speakers
       = mkSpeakerRows tr.speakers ∧
     (processProject env maxRetries retryDelay maxWords).statusTrace
       = ["extracting", "transcribing", "identifying", "explaining", "ready"]) ∧
    (∀ (env' : PipelineEnv) (mr' : Nat) (rd' : Rat) (mw' : Nat)
       (r1 r2 : Except String (List (String × SpeakerIdentification))),
      (processProject { env' with identifyResult := r1 } mr' rd' mw').status
        = (processProject { env' with identifyResult := r2 } mr' rd' mw').status ∧
      (processProject { env' with identifyResult := r1 } mr' rd' mw').statusTrace
        = (processProject { env' with identifyResult := r2 } mr' rd' mw').statusTrace ∧
      (processProject { env' with identifyResult := r1 } mr' rd' mw').sentences
        = (processProject { env' with identifyResult := r2 } mr' rd' mw').sentences) := by
  constructor
  · refine ⟨?_, ?_, ?_, ?_⟩ <;>
      simp [processProject, hex, htr, hid, persistStatus, failRun, hxp,
        identifySpeakersStage_error]
  · intro env' mr' rd' mw' r1 r2
    unfold processProject
    cases hE : env'.extractResult with
    | error e0 => simp [hE]
    | ok u =>
      simp only [hE]
      cases hR : (transcribeWithRetry env'.transcribeOutcomes mr' rd').result with
      | error e1 => simp [hR]
      | ok tr' =>
        simp only [hR]
        cases hX : env'.explainResult with
        | error e2 => simp [hX, persistStatus, failRun]
        | ok u2 => simp [hX, persistStatus, failRun]

def c8Tr : TranscriptionResult :=
  { speakers := [{ label := "A", display_name := none, confidence := 0, evidence := [] }]
    utterances := [] }

def c8Env : PipelineEnv :=
  { extractResult := .ok ()
    transcribeOutcomes := fun _ => .ok c8Tr
    identifyResult := .error "API timeout"
    explainResult := .ok () }

theorem C8_identification_never_fails_pipeline_witness :
    (c8Env.extractResult = .ok () ∧
      (transcribeWithRetry c8Env.transcribeOutcomes 3 2).result = .ok c8Tr ∧
      c8Env.identifyResult = .error "API timeout" ∧
      c8Env.explainResult = .ok ()) ∧
    (processProject c8Env 3 2 100).status = "ready" :=
  ⟨⟨rfl, by decide, rfl, rfl⟩,
    (C8_identification_never_fails_pipeline c8Env 3 2 100 "API timeout" c8Tr
      rfl (by decide) rfl rfl).1.1⟩

def c9Env : PipelineEnv :=
  { extractResult := .ok ()
    transcribeOutcomes := fun _ => .ok { speakers := [], utterances := [] }
    identifyResult := .ok []
    explainResult := .ok () }

/-- **C9** (code bug): a successful pipeline run persists the status
value `"identifying"`, but the `Project` model's `check_valid_status`
check constraint accepts only `pending`, `extracting`, `transcribing`,
`explaining`, `ready` and `error` — `identifying` is missing from the
constraint (and from the model docstring), so the status-enum invariant
claimed from the model is violated by the orchestrator's own stage 3;
every other persisted status is in the constraint's set. -/
theorem C9_identifying_outside_model_enum :
    "identifying" ∈ (processProject c9Env 3 2 100).statusTrace ∧
    "identifying" ∉ validStatuses ∧
    (∀ s ∈ (processProject c9Env 3 2 100).statusTrace,
      s = "identifying" ∨ s ∈ validStatuses) := by decide

end DutchLearn
